import Mathlib

/-!
# Verification of the ModernEmbedded scheduler core (src/main.cpp)

Shallow embedding of the `Scheduler`, `Controller` and `EventBus` classes of
`src/main.cpp` into Lean, together with theorems settling the specification
claims about them.

Modelling conventions:

* `std::chrono::steady_clock::time_point` and millisecond durations become
  `Int` timestamps.  The clock samples taken by `Scheduler::run` (one
  `steady_clock::now()` per tick) are abstracted as a function
  `nowAt : Nat → Int` giving the sampled time of each tick; the fixed
  50 ms inter-tick sleep in the reference binary means consecutive samples
  advance by roughly 50 ms, which is reflected by the concrete choice of
  `nowAt` in scenario theorems.
* A `std::function<void()>` task action has no observable structure beyond
  its identity, so actions are modelled by an abstract label type `ι`; an
  invocation of the action is recorded by emitting its label into a trace.
* C++ state mutation becomes explicit state passing: each operation returns
  the updated data structure together with the trace of invocations it
  performed.
-/

namespace ModernEmbedded

/-- The `Scheduler::Task` record of src/main.cpp (lines 89-93):
`{std::function<void()> func; int intervalMs; time_point nextRun;}`.
The action `func` is modelled by a label of type `ι`. -/
structure Task (ι : Type) where
  func : ι
  intervalMs : Int
  nextRun : Int
deriving DecidableEq, Repr

namespace Scheduler

/-- `Scheduler::addTask` (src/main.cpp line 96-98):
`tasks.push_back({f, intervalMs, std::chrono::steady_clock::now()});`.
The sampled registration time `steady_clock::now()` is passed explicitly
as `now`. -/
def addTask {ι : Type} (tasks : List (Task ι)) (f : ι) (intervalMs : Int)
    (now : Int) : List (Task ι) :=
  tasks ++ [{ func := f, intervalMs := intervalMs, nextRun := now }]

/-- One iteration of the inner loop of `Scheduler::run` (src/main.cpp
lines 102-107): walk the task vector in order; for each task with
`now >= t.nextRun`, invoke `t.func()` (recorded in the returned trace)
and set `t.nextRun = now + milliseconds(t.intervalMs)`.
Returns the updated task vector and the labels invoked, in order. -/
def tick {ι : Type} (now : Int) : List (Task ι) → List (Task ι) × List ι
  | [] => ([], [])
  | t :: ts =>
    let rest := tick now ts
    if now ≥ t.nextRun then
      ({ t with nextRun := now + t.intervalMs } :: rest.1, t.func :: rest.2)
    else
      (t :: rest.1, rest.2)

/-- `Scheduler::run(cycles)` (src/main.cpp lines 99-110): `cycles` tick
iterations; tick `i` samples `now = nowAt i`, dispatches the due tasks and
then sleeps for the fixed 50 ms interval (the sleep is captured by the
abstract clock `nowAt`).  Returns the final task vector and the per-tick
invocation trace (one list of invoked labels per tick). -/
def run {ι : Type} (tasks : List (Task ι)) :
    Nat → (Nat → Int) → List (Task ι) × List (List ι)
  | 0, _ => (tasks, [])
  | n + 1, nowAt =>
    let r := tick (nowAt 0) tasks
    let r2 := run r.1 n (fun i => nowAt (i + 1))
    (r2.1, r.2 :: r2.2)

/-- The state update of one tick, per task: a due task is rebased from the
sampled `now`, a non-due task is untouched. -/
def step {ι : Type} (now : Int) (t : Task ι) : Task ι :=
  if now ≥ t.nextRun then { t with nextRun := now + t.intervalMs } else t

theorem tick_fst {ι : Type} (now : Int) (ts : List (Task ι)) :
    (tick now ts).1 = ts.map (step now) := by
  induction ts with
  | nil => rfl
  | cons t ts ih =>
    simp only [tick, step, List.map_cons]
    split <;> simp [ih]

theorem tick_snd {ι : Type} (now : Int) (ts : List (Task ι)) :
    (tick now ts).2 = (ts.filter (fun t => decide (now ≥ t.nextRun))).map Task.func := by
  induction ts with
  | nil => rfl
  | cons t ts ih =>
    simp only [tick]
    by_cases h : now ≥ t.nextRun
    · simp [h, List.filter_cons, ih]
    · simp [h, List.filter_cons, ih]

theorem step_preserves_shape {ι : Type} (now : Int) (t : Task ι) :
    (step now t).func = t.func ∧ (step now t).intervalMs = t.intervalMs := by
  unfold step
  split <;> exact ⟨rfl, rfl⟩

theorem tick_preserves_shape {ι : Type} (now : Int) (ts : List (Task ι)) :
    (tick now ts).1.map (fun t => (t.func, t.intervalMs))
      = ts.map (fun t => (t.func, t.intervalMs)) := by
  rw [tick_fst, List.map_map]
  refine List.map_congr_left (fun t _ => ?_)
  have h := step_preserves_shape now t
  simp [Function.comp, h.1, h.2]

theorem run_trace_length {ι : Type} (ts : List (Task ι)) (cycles : Nat)
    (nowAt : Nat → Int) : (run ts cycles nowAt).2.length = cycles := by
  induction cycles generalizing ts nowAt with
  | zero => rfl
  | succ n ih => simp [run, ih]

theorem run_preserves_shape {ι : Type} (ts : List (Task ι)) (cycles : Nat)
    (nowAt : Nat → Int) :
    (run ts cycles nowAt).1.map (fun t => (t.func, t.intervalMs))
      = ts.map (fun t => (t.func, t.intervalMs)) := by
  induction cycles generalizing ts nowAt with
  | zero => rfl
  | succ n ih =>
    simp only [run]
    rw [ih, tick_preserves_shape]

end Scheduler

/-- An observable call on a component: `c.init()` or `c.update()`.
Components are identified by labels of type `ι`. -/
inductive CEvent (ι : Type) where
  | init (c : ι)
  | update (c : ι)
deriving DecidableEq, Repr

/-- The `Controller` state of src/main.cpp (lines 114-124):
`std::vector<std::shared_ptr<Component>> components; Scheduler scheduler;`.
A component's scheduled action `[c](){ c->update(); }` is modelled by using
the component label itself as the task label, so a scheduler invocation of
label `c` is exactly a `c->update()` call. -/
structure Controller (ι : Type) where
  components : List ι
  sched : List (Task ι)
deriving DecidableEq, Repr

namespace Controller

/-- A freshly constructed `Controller`: empty component vector, empty
scheduler task vector. -/
def empty {ι : Type} : Controller ι := { components := [], sched := [] }

/-- `Controller::addComponent` (src/main.cpp lines 118-122) on the path
where `c->init()` returns normally: call `c->init()` (recorded in the
trace), push `c` onto `components`, and register the scheduler task
`[c](){ c->update(); }` with the given interval; `now` is the
`steady_clock::now()` sampled inside `Scheduler::addTask`. -/
def addComponent {ι : Type} (st : Controller ι) (c : ι) (intervalMs now : Int) :
    Controller ι × List (CEvent ι) :=
  ({ components := st.components ++ [c],
     sched := Scheduler.addTask st.sched c intervalMs now },
   [CEvent.init c])

/-- `Controller::addComponent` with a fallible `init`, modelling C++
exception propagation: `c->init()` is the first statement of the body
(src/main.cpp line 119), so when it throws, `components.push_back(c)` and
`scheduler.addTask(...)` (lines 120-121) never execute and the exception
propagates with the controller unchanged.  `initOk c` tells whether
`c->init()` returns normally; the returned `Bool` is `true` iff the call
completed (rather than propagating an exception). -/
def addComponentE {ι : Type} (st : Controller ι) (initOk : ι → Bool) (c : ι)
    (intervalMs now : Int) : Controller ι × Bool :=
  if initOk c then
    ({ components := st.components ++ [c],
       sched := Scheduler.addTask st.sched c intervalMs now },
     true)
  else
    (st, false)

/-- `Controller::run(cycles)` (src/main.cpp line 123): delegates to
`scheduler.run(cycles)`.  Each scheduler invocation of a task labelled `c`
is a `c->update()` call, so the flattened scheduler trace is mapped to
`update` events. -/
def run {ι : Type} (st : Controller ι) (cycles : Nat) (nowAt : Nat → Int) :
    Controller ι × List (CEvent ι) :=
  let r := Scheduler.run st.sched cycles nowAt
  ({ st with sched := r.1 }, r.2.flatten.map CEvent.update)

/-- A sequence of `addComponent` calls: each entry is
`(component, intervalMs, registration time)`.  Returns the final state and
the concatenated trace. -/
def addAll {ι : Type} (st : Controller ι) :
    List (ι × Int × Int) → Controller ι × List (CEvent ι)
  | [] => (st, [])
  | (c, p, t) :: rest =>
    let r := addComponent st c p t
    let r2 := addAll r.1 rest
    (r2.1, r.2 ++ r2.2)

/-- A sequence of `run` calls: each entry is `(cycles, per-tick clock)`.
Returns the final state and the concatenated trace. -/
def runAll {ι : Type} (st : Controller ι) :
    List (Nat × (Nat → Int)) → Controller ι × List (CEvent ι)
  | [] => (st, [])
  | (cy, f) :: rest =>
    let r := run st cy f
    let r2 := runAll r.1 rest
    (r2.1, r.2 ++ r2.2)

/-- The usage contract of the core (spec §6): construct a `Controller`,
register components with `addComponent`, then drive the scheduler with one
or more `run` calls.  Returns the full observable trace of `init`/`update`
calls. -/
def program {ι : Type} (adds : List (ι × Int × Int))
    (runs : List (Nat × (Nat → Int))) : List (CEvent ι) :=
  let r := addAll (empty : Controller ι) adds
  let r2 := runAll r.1 runs
  r.2 ++ r2.2

theorem addAll_trace {ι : Type} (st : Controller ι) (adds : List (ι × Int × Int)) :
    (addAll st adds).2 = adds.map (fun a => CEvent.init a.1) := by
  induction adds generalizing st with
  | nil => rfl
  | cons a rest ih =>
    obtain ⟨c, p, t⟩ := a
    simp [addAll, addComponent, ih]

theorem run_trace_update {ι : Type} (st : Controller ι) (cycles : Nat)
    (nowAt : Nat → Int) :
    ∀ e ∈ (run st cycles nowAt).2, ∃ d, e = CEvent.update d := by
  intro e he
  simp only [run, List.mem_map] at he
  obtain ⟨d, _, rfl⟩ := he
  exact ⟨d, rfl⟩

theorem runAll_trace_update {ι : Type} (st : Controller ι)
    (runs : List (Nat × (Nat → Int))) :
    ∀ e ∈ (runAll st runs).2, ∃ d, e = CEvent.update d := by
  induction runs generalizing st with
  | nil => intro e he; simp [runAll] at he
  | cons r rest ih =>
    obtain ⟨cy, f⟩ := r
    intro e he
    simp only [runAll, List.mem_append] at he
    rcases he with he | he
    · exact run_trace_update st cy f e he
    · exact ih _ e he

end Controller

/-- The `Event` value of src/main.cpp (lines 30-33):
`{std::string type; std::string payload;}`. -/
structure Event where
  type : String
  payload : String
deriving DecidableEq, Repr

/-- The `EventBus` of src/main.cpp (lines 35-49): a
`std::map<std::string, std::vector<handler>>` registry.  Handlers
(`std::function<void(const Event&)>`) are modelled by labels of type `H`.
The map is modelled as an association list with unique-key lookup
semantics; `std::map` keeps keys sorted while this list keeps insertion
order, which is observationally equivalent since all access is by key.
The mutex only serialises accesses and has no sequential effect. -/
structure EventBus (H : Type) where
  handlers : List (String × List H)
deriving DecidableEq, Repr

namespace EventBus

/-- A freshly constructed `EventBus`: empty registry. -/
def empty {H : Type} : EventBus H := { handlers := [] }

/-- `handlers.count(k)` of `std::map`: whether key `k` is present. -/
def hasKey {H : Type} : List (String × List H) → String → Bool
  | [], _ => false
  | (k', _) :: rest, k => if k = k' then true else hasKey rest k

/-- `handlers[k]` of `std::map` (`operator[]`): default-inserts an empty
vector when `k` is absent, and returns the (possibly new) map together
with the vector stored at `k`. -/
def mapIndex {H : Type} : List (String × List H) → String →
    List (String × List H) × List H
  | [], k => ([(k, [])], [])
  | (k', v) :: rest, k =>
    if k = k' then ((k', v) :: rest, v)
    else
      let r := mapIndex rest k
      ((k', v) :: r.1, r.2)

/-- Store vector `v` at key `k` (the write-back of a mutation made through
the reference returned by `operator[]`). -/
def setEntry {H : Type} : List (String × List H) → String → List H →
    List (String × List H)
  | [], k, v => [(k, v)]
  | (k', w) :: rest, k, v =>
    if k = k' then (k', v) :: rest else (k', w) :: setEntry rest k v

/-- `EventBus::registerHandler` (src/main.cpp lines 39-42):
`handlers[type].push_back(handler);` — `operator[]` default-inserts the
vector for `type` if absent, then the handler is appended to it. -/
def registerHandler {H : Type} (bus : EventBus H) (type : String) (h : H) :
    EventBus H :=
  let r := mapIndex bus.handlers type
  { handlers := setEntry r.1 type (r.2 ++ [h]) }

/-- `EventBus::emit` (src/main.cpp lines 43-48):
`if(handlers.count(evt.type)) { for(auto& h : handlers[evt.type]) h(evt); }`.
Returns the registry after the call and the invocation trace: each invoked
handler paired with the event it was passed, in registration order. -/
def emit {H : Type} (bus : EventBus H) (evt : Event) :
    EventBus H × List (H × Event) :=
  if hasKey bus.handlers evt.type then
    let r := mapIndex bus.handlers evt.type
    ({ handlers := r.1 }, r.2.map (fun h => (h, evt)))
  else
    (bus, [])

theorem mapIndex_fst_of_hasKey {H : Type} (m : List (String × List H))
    (k : String) (h : hasKey m k = true) : (mapIndex m k).1 = m := by
  induction m with
  | nil => simp [hasKey] at h
  | cons e rest ih =>
    obtain ⟨k', v⟩ := e
    by_cases hk : k = k'
    · simp [mapIndex, hk]
    · simp only [hasKey, if_neg hk] at h
      simp [mapIndex, hk, ih h]

end EventBus

/-! ## Claim theorems -/

/-- C1: In `Scheduler::run`, on every tick, every task whose next-due time
is at or before the tick's sampled `now` has its action invoked (in
registration order), and its `nextRun` is set to the sampled `now` plus the
task's period — rebased from the sampled `now`, not from the pre-call due
time — so a delayed tick postpones future invocations instead of producing
catch-up invocations.  Stated on the first tick of any run: the invocation
trace of the tick is exactly the due tasks' actions in order, and the state
after a one-tick run maps every due task to a copy rebased at
`nowAt 0 + intervalMs` and leaves non-due tasks untouched. -/
theorem scheduler_run_tick_rebases_due_tasks {ι : Type} (s : List (Task ι))
    (n : Nat) (nowAt : Nat → Int) :
    (Scheduler.run s (n + 1) nowAt).2.headI
        = (s.filter (fun t => decide (nowAt 0 ≥ t.nextRun))).map Task.func ∧
    (Scheduler.run s 1 nowAt).1
        = s.map (fun t => if nowAt 0 ≥ t.nextRun
            then { t with nextRun := nowAt 0 + t.intervalMs } else t) := by
  constructor
  · show (Scheduler.tick (nowAt 0) s).2 = _
    exact Scheduler.tick_snd (nowAt 0) s
  · show (Scheduler.tick (nowAt 0) s).1 = _
    rw [Scheduler.tick_fst]
    exact List.map_congr_left fun t _ => rfl

/-- C2: `Scheduler::addTask` appends a task record whose `nextRun` equals
the time sampled at registration, so a task registered before a run is due
on the run's very first tick (whose sampled time, on a monotone clock, is
at or after the registration time) and its action is invoked there — no
warm-up delay. -/
theorem scheduler_addTask_fires_on_first_tick {ι : Type} (s : List (Task ι))
    (f : ι) (p regNow : Int) (n : Nat) (nowAt : Nat → Int)
    (hmono : regNow ≤ nowAt 0) :
    Scheduler.addTask s f p regNow
        = s ++ [{ func := f, intervalMs := p, nextRun := regNow }] ∧
    (∀ t ∈ Scheduler.addTask s f p regNow, t.nextRun ≤ nowAt 0 →
      t.func ∈ (Scheduler.run (Scheduler.addTask s f p regNow) (n + 1)
        nowAt).2.headI) ∧
    f ∈ (Scheduler.run (Scheduler.addTask s f p regNow) (n + 1) nowAt).2.headI := by
  have hdue : ∀ t ∈ Scheduler.addTask s f p regNow, t.nextRun ≤ nowAt 0 →
      t.func ∈ (Scheduler.run (Scheduler.addTask s f p regNow) (n + 1)
        nowAt).2.headI := by
    intro t hmem ht
    show t.func ∈ (Scheduler.tick (nowAt 0) (Scheduler.addTask s f p regNow)).2
    rw [Scheduler.tick_snd]
    exact List.mem_map.mpr
      ⟨t, List.mem_filter.mpr ⟨hmem, by simpa using ht⟩, rfl⟩
  refine ⟨rfl, hdue, ?_⟩
  exact hdue { func := f, intervalMs := p, nextRun := regNow }
    (by simp [Scheduler.addTask]) hmono

/-- Witness for C2 at a concrete input: one task registered at time 0,
first tick sampled at time 0. -/
theorem scheduler_addTask_fires_on_first_tick_witness :
    (0 : Int) ≤ (fun _ : Nat => (0 : Int)) 0 ∧
    (0 : Nat) ∈ (Scheduler.run (Scheduler.addTask [] 0 5 0) (0 + 1)
      (fun _ => 0)).2.headI :=
  ⟨le_refl 0,
   (scheduler_addTask_fires_on_first_tick [] 0 5 0 0 (fun _ => 0)
     (le_refl 0)).2.2⟩

/-- C7: `Scheduler::run(cycles)` performs exactly `cycles` tick iterations
and then terminates (the per-tick trace has length `cycles`); in particular
`run(0)` performs no tick and no task invocation and returns at once with
the tasks untouched.  `run` is a total structurally recursive function:
there is no infinite-run mode. -/
theorem scheduler_run_exactly_cycles_ticks {ι : Type} (s : List (Task ι))
    (cycles : Nat) (nowAt : Nat → Int) :
    (Scheduler.run s cycles nowAt).2.length = cycles ∧
    Scheduler.run s 0 nowAt = (s, []) :=
  ⟨Scheduler.run_trace_length s cycles nowAt, rfl⟩

/-- C9: `Scheduler::run` mutates only the `nextRun` timestamps: it never
adds or removes a task record and never changes a task's action or period,
so after `run(cycles)` the task count and every task's `(func, intervalMs)`
pair are exactly as before the call. -/
theorem scheduler_run_preserves_task_structure {ι : Type} (s : List (Task ι))
    (cycles : Nat) (nowAt : Nat → Int) :
    (Scheduler.run s cycles nowAt).1.length = s.length ∧
    (Scheduler.run s cycles nowAt).1.map (fun t => (t.func, t.intervalMs))
      = s.map (fun t => (t.func, t.intervalMs)) := by
  have h := Scheduler.run_preserves_shape s cycles nowAt
  refine ⟨?_, h⟩
  have := congrArg List.length h
  simpa using this

/-- C5: registering two handlers for the same type `K` on a fresh bus and
then emitting one event of type `K` invokes exactly those two handlers,
each exactly once, in registration order, passing the emitted event to
both. -/
theorem eventBus_two_handlers_invoked_in_order {H : Type} (K payload : String)
    (h1 h2 : H) :
    (EventBus.emit
        (EventBus.registerHandler
          (EventBus.registerHandler EventBus.empty K h1) K h2)
        { type := K, payload := payload }).2
      = [(h1, { type := K, payload := payload }),
         (h2, { type := K, payload := payload })] := by
  simp [EventBus.emit, EventBus.registerHandler, EventBus.empty,
    EventBus.mapIndex, EventBus.setEntry, EventBus.hasKey]

/-- C6: emitting an event whose type has zero registered handlers is a
no-op: the `count` guard fails, no handler is invoked, no entry is
created, and the call returns normally with the bus unchanged. -/
theorem eventBus_emit_without_handlers_noop {H : Type} (bus : EventBus H)
    (k payload : String) (h : EventBus.hasKey bus.handlers k = false) :
    EventBus.emit bus { type := k, payload := payload } = (bus, []) := by
  simp [EventBus.emit, h]

/-- Witness for C6 at a concrete input: a bus holding one handler for
"ALERT", emitting an event of the unregistered type "STATUS". -/
theorem eventBus_emit_without_handlers_noop_witness :
    EventBus.hasKey
        (EventBus.registerHandler (EventBus.empty : EventBus Nat)
          "ALERT" 7).handlers "STATUS" = false ∧
    EventBus.emit
        (EventBus.registerHandler (EventBus.empty : EventBus Nat) "ALERT" 7)
        { type := "STATUS", payload := "ping" }
      = (EventBus.registerHandler (EventBus.empty : EventBus Nat) "ALERT" 7,
         []) :=
  ⟨by decide,
   eventBus_emit_without_handlers_noop _ "STATUS" "ping" (by decide)⟩

/-- C10: `EventBus::emit` never changes the subscription registry: the bus
after `emit` equals the bus before it, for every bus and every event — in
particular emitting an event of an unregistered type does not
default-insert an empty entry, because the `count` guard keeps `operator[]`
from running on an absent key. -/
theorem eventBus_emit_preserves_registry {H : Type} (bus : EventBus H)
    (evt : Event) : (EventBus.emit bus evt).1 = bus := by
  unfold EventBus.emit
  by_cases h : EventBus.hasKey bus.handlers evt.type
  · simp [h, EventBus.mapIndex_fst_of_hasKey bus.handlers evt.type h]
  · simp [h]

/-- C4: when a component's `init()` throws during
`Controller::addComponent`, the registration aborts atomically: `init` is
the first statement of the body, so the component is not pushed onto the
component vector, no scheduler task is registered, and the controller (and
its scheduler) are exactly as before the call. -/
theorem controller_addComponent_init_failure_aborts {ι : Type}
    (st : Controller ι) (initOk : ι → Bool) (c : ι) (intervalMs now : Int)
    (h : initOk c = false) :
    Controller.addComponentE st initOk c intervalMs now = (st, false) := by
  simp [Controller.addComponentE, h]

/-- Witness for C4 at a concrete input: a component whose `init` always
throws, added to a fresh controller. -/
theorem controller_addComponent_init_failure_aborts_witness :
    (fun _ : Nat => false) 0 = false ∧
    Controller.addComponentE (Controller.empty : Controller Nat)
        (fun _ => false) 0 1000 0
      = ((Controller.empty : Controller Nat), false) :=
  ⟨rfl,
   controller_addComponent_init_failure_aborts Controller.empty
     (fun _ => false) 0 1000 0 rfl⟩

theorem count_init_map {ι : Type} [DecidableEq ι] (l : List (ι × Int × Int))
    (c : ι) :
    (l.map (fun a => CEvent.init a.1)).count (CEvent.init c)
      = (l.map Prod.fst).count c := by
  induction l with
  | nil => rfl
  | cons a rest ih =>
    simp [List.count_cons, ih]

theorem program_decomp {ι : Type} (adds : List (ι × Int × Int))
    (runs : List (Nat × (Nat → Int))) :
    Controller.program adds runs
      = adds.map (fun a => CEvent.init a.1)
        ++ (Controller.runAll
            (Controller.addAll (Controller.empty : Controller ι) adds).1
            runs).2 := by
  simp only [Controller.program]
  rw [Controller.addAll_trace]

/-- C3: in the usage contract (register components, then drive the
scheduler), every component registered exactly once has `init()` called
exactly once, and every `update()` invocation of that component occurs
strictly after its `init()` in the observable trace, for arbitrary
periods, registration times, run counts and tick clocks. -/
theorem controller_init_once_before_first_update {ι : Type} [DecidableEq ι]
    (adds : List (ι × Int × Int)) (runs : List (Nat × (Nat → Int))) (c : ι)
    (hc : (adds.map Prod.fst).count c = 1) :
    (Controller.program adds runs).count (CEvent.init c) = 1 ∧
    ∀ i j : Nat, i < (Controller.program adds runs).length →
      j < (Controller.program adds runs).length →
      (Controller.program adds runs).getD i (CEvent.update c) = CEvent.init c →
      (Controller.program adds runs).getD j (CEvent.init c) = CEvent.update c →
      i < j := by
  set pre := adds.map (fun a => CEvent.init a.1) with hpre
  set post := (Controller.runAll
      (Controller.addAll (Controller.empty : Controller ι) adds).1 runs).2
    with hpost
  have hdec : Controller.program adds runs = pre ++ post :=
    program_decomp adds runs
  have hnotin : CEvent.init c ∉ post := by
    intro hmem
    obtain ⟨d, hd⟩ := Controller.runAll_trace_update _ runs _ hmem
    exact CEvent.noConfusion hd
  constructor
  · rw [hdec, List.count_append, count_init_map, hc,
      List.count_eq_zero.mpr hnotin]
  · intro i j hi hj hvi hvj
    rw [hdec] at hi hj hvi hvj
    have hipre : i < pre.length := by
      by_contra hge
      push_neg at hge
      rw [List.getD_eq_getElem _ _ hi, List.getElem_append_right hge] at hvi
      exact hnotin (hvi ▸ List.getElem_mem _)
    have hjpost : pre.length ≤ j := by
      by_contra hlt
      push_neg at hlt
      rw [List.getD_eq_getElem _ _ hj, List.getElem_append_left hlt] at hvj
      have hmem : CEvent.update c ∈ pre := hvj ▸ List.getElem_mem _
      rw [hpre] at hmem
      obtain ⟨a, _, ha⟩ := List.mem_map.mp hmem
      exact CEvent.noConfusion ha
    exact lt_of_lt_of_le hipre hjpost

/-- Witness for C3 at a concrete input: one component with period 500
registered at time 0, one run of a single tick sampled at time 0. -/
theorem controller_init_once_before_first_update_witness :
    (([((0 : Nat), (500 : Int), (0 : Int))].map Prod.fst).count 0 = 1) ∧
    ((Controller.program [((0 : Nat), (500 : Int), (0 : Int))]
        [(1, fun _ => (0 : Int))]).count (CEvent.init 0) = 1 ∧
     ∀ i j : Nat,
       i < (Controller.program [((0 : Nat), (500 : Int), (0 : Int))]
              [(1, fun _ => (0 : Int))]).length →
       j < (Controller.program [((0 : Nat), (500 : Int), (0 : Int))]
              [(1, fun _ => (0 : Int))]).length →
       (Controller.program [((0 : Nat), (500 : Int), (0 : Int))]
           [(1, fun _ => (0 : Int))]).getD i (CEvent.update 0)
         = CEvent.init 0 →
       (Controller.program [((0 : Nat), (500 : Int), (0 : Int))]
           [(1, fun _ => (0 : Int))]).getD j (CEvent.init 0)
         = CEvent.update 0 →
       i < j) :=
  ⟨by decide,
   controller_init_once_before_first_update
     [((0 : Nat), (500 : Int), (0 : Int))] [(1, fun _ => (0 : Int))] 0
     (by decide)⟩

/-- C8 counterexample: in the scenario of the claim — component A (label 0)
with period 500 ms and component B (label 1) with period 700 ms registered
at t = 0, run for 10 cycles with ticks sampled at 50 ms granularity
(t = 0, 50, …, 450) — B's update DOES fire within the run (once, on the
first tick, because `addTask` makes a fresh task due immediately), so the
claimed "B's update does not fire at all" is false. -/
theorem scenario_b_update_fires_within_run :
    ¬ ((Controller.program [((0 : Nat), (500 : Int), (0 : Int)), (1, 700, 0)]
        [(10, fun i => (50 : Int) * i)]).count (CEvent.update 1) = 0) := by
  decide

/-- C8 amended: in the same scenario, A's update fires exactly once — on
the first tick, at sampled time t = 0, not near t ≈ 500 ms — and B's
update also fires exactly once, likewise on the first tick; no task fires
on any of the nine remaining ticks (sampled times 50 … 450, all before the
rebased due times 500 and 700). -/
theorem scenario_both_fire_once_on_first_tick :
    (Controller.run
        (Controller.addAll (Controller.empty : Controller Nat)
          [(0, 500, 0), (1, 700, 0)]).1 10 (fun i => (50 : Int) * i)).2
      = [CEvent.update 0, CEvent.update 1] ∧
    (Scheduler.run
        (Controller.addAll (Controller.empty : Controller Nat)
          [(0, 500, 0), (1, 700, 0)]).1.sched 10 (fun i => (50 : Int) * i)).2
      = [[0, 1], [], [], [], [], [], [], [], [], []] := by
  constructor <;> decide

end ModernEmbedded
